import Mathlib

/-!
Verification of the fitness-challenge tracking application's scoring and
ranking computation layer.

The embedding models the SQLite-backed store (src/database/db_manager.py)
and the aggregation queries (src/analytics/data_processing.py) as pure
functions over an explicit store state.  SQL `REAL` columns are modelled
as `ℚ` (the queries only add, multiply and divide values, so exact
rationals capture the arithmetic; no rounding happens inside the store).
`DATE` columns are modelled as `ℕ` day numbers, so calendar-consecutive
dates are consecutive naturals.  Rows produced by a `GROUP BY u.user_id`
are emitted in table-scan order (ascending rowid / `user_id`), and SQL
`ORDER BY` is modelled as a stable insertion sort on that row sequence,
which matches SQLite's behaviour of keeping the incoming order for equal
keys on these queries.
-/

namespace FitnessApp

/-- A row of the `sports` table (db_manager.py, init_database). -/
structure Sport where
  sport_id : ℕ
  sport_name : String
  unit : String
  points_per_unit : ℚ
  description : String
  deriving Repr, DecidableEq

/-- A row of the `users` table (db_manager.py, init_database).
Password hash and timestamps are not consumed by any scoring query and
are omitted. -/
structure User where
  user_id : ℕ
  username : String
  full_name : String
  gender : Option String
  age_group : Option String
  location : Option String
  team_id : Option ℕ
  deriving Repr, DecidableEq

/-- A row of the `teams` table (db_manager.py, init_database). -/
structure Team where
  team_id : ℕ
  team_name : String
  description : String
  created_by : ℕ
  deriving Repr, DecidableEq

/-- A row of the `performances` table (db_manager.py, init_database). -/
structure Performance where
  performance_id : ℕ
  user_id : ℕ
  sport_id : ℕ
  value : ℚ
  points_calculated : ℚ
  date_recorded : ℕ
  notes : Option String
  deriving Repr, DecidableEq

/-- The database state as seen by the queries.  `next_performance_id`
models the AUTOINCREMENT counter behind `cursor.lastrowid`. -/
structure Store where
  users : List User
  teams : List Team
  sports : List Sport
  performances : List Performance
  next_performance_id : ℕ
  deriving Repr, DecidableEq

/-- `SELECT points_per_unit FROM sports WHERE sport_id = ?` —
first matching row, `None` when the sport is absent. -/
def lookupSport (db : Store) (sport_id : ℕ) : Option Sport :=
  db.sports.find? (fun s => s.sport_id == sport_id)

/-- db_manager.py `calculate_points`: returns `value * points_per_unit`
when the sport exists and `0` when the catalog lookup comes back empty
(the `if result ... return 0` fallthrough). -/
def calculate_points (db : Store) (sport_id : ℕ) (value : ℚ) : ℚ :=
  match lookupSport db sport_id with
  | some s => value * s.points_per_unit
  | none => 0

/-- db_manager.py `add_performance`: computes the points, INSERTs the row
unconditionally (SQLite does not enforce the declared foreign key by
default) and returns `cursor.lastrowid`. -/
def add_performance (db : Store) (user_id sport_id : ℕ) (value : ℚ)
    (date_recorded : ℕ) (notes : Option String) : ℕ × Store :=
  let points := calculate_points db sport_id value
  let pid := db.next_performance_id
  (pid,
    { db with
      performances := db.performances ++
        [⟨pid, user_id, sport_id, value, points, date_recorded, notes⟩]
      next_performance_id := pid + 1 })

/-- The performances belonging to one user
(`WHERE p.user_id = ?` / the LEFT JOIN on `u.user_id = p.user_id`). -/
def userPerformances (db : Store) (user_id : ℕ) : List Performance :=
  db.performances.filter (fun p => p.user_id == user_id)

/-- `COALESCE(SUM(p.points_calculated), 0)` over a user's performances. -/
def userTotalPoints (db : Store) (user_id : ℕ) : ℚ :=
  ((userPerformances db user_id).map (·.points_calculated)).sum

/-! ### Sorting and ranking helpers shared by the leaderboard queries -/

/-- `ORDER BY k1 DESC, k2 DESC` on a pair of numeric sort keys: `a` may
be listed before `b`. -/
def descLex (a b : ℚ × ℚ) : Prop :=
  b.1 < a.1 ∨ (a.1 = b.1 ∧ b.2 ≤ a.2)

instance : DecidableRel descLex := fun a b => by
  unfold descLex; infer_instance

instance : IsTotal (ℚ × ℚ) descLex where
  total a b := by
    rcases lt_trichotomy a.1 b.1 with h | h | h
    · exact Or.inr (Or.inl h)
    · rcases le_total b.2 a.2 with h2 | h2
      · exact Or.inl (Or.inr ⟨h, h2⟩)
      · exact Or.inr (Or.inr ⟨h.symm, h2⟩)
    · exact Or.inl (Or.inl h)

instance : IsTrans (ℚ × ℚ) descLex where
  trans _a _b _c hab hbc := by
    rcases hab with h | ⟨he, h2⟩
    · rcases hbc with h' | ⟨he', _⟩
      · exact Or.inl (h'.trans h)
      · exact Or.inl (he' ▸ h)
    · rcases hbc with h' | ⟨he', h2'⟩
      · exact Or.inl (he ▸ h')
      · exact Or.inr ⟨he.trans he', h2'.trans h2⟩

/-- Ordering of rows by a two-component descending sort key. -/
def keyLe (key : α → ℚ × ℚ) (a b : α) : Prop :=
  descLex (key a) (key b)

instance (key : α → ℚ × ℚ) : DecidableRel (keyLe key) := fun a b => by
  unfold keyLe; infer_instance

instance (key : α → ℚ × ℚ) : IsTotal α (keyLe key) where
  total a b := IsTotal.total (r := descLex) (key a) (key b)

instance (key : α → ℚ × ℚ) : IsTrans α (keyLe key) where
  trans _a _b _c hab hbc := IsTrans.trans (r := descLex) _ _ _ hab hbc

/-- `df['rank'] = range(i, i + len(df))`: write consecutive rank numbers
into the rows, in order, via the row type's rank setter. -/
def assignRanks (set : α → ℕ → α) (i : ℕ) : List α → List α
  | [] => []
  | r :: rs => set r i :: assignRanks set (i + 1) rs

/-! ### data_processing.py `get_leaderboard_data` -/

/-- One row of the overall-leaderboard result frame.
(`days_since_last_activity` depends on the wall clock and is presentation
glue; it is not part of the embedded aggregate.) -/
structure LeaderboardRow where
  user_id : ℕ
  username : String
  full_name : String
  gender : Option String
  age_group : Option String
  location : Option String
  team_name : Option String
  total_points : ℚ
  total_activities : ℕ
  last_activity_date : Option ℕ
  avg_points_per_activity : Option ℚ
  rank : ℕ
  deriving Repr, DecidableEq

/-- `LEFT JOIN teams t ON u.team_id = t.team_id`, projected to the name. -/
def teamNameOf (db : Store) (u : User) : Option String :=
  u.team_id.bind (fun tid => (db.teams.find? (fun t => t.team_id == tid)).map (·.team_name))

/-- The `GROUP BY u.user_id` aggregate row of `get_leaderboard_data` for
one user, before sorting and ranking.  `AVG` and `MAX` are SQL NULL
(`none`) when the user has no performances; `SUM` is wrapped in
`COALESCE(..., 0)`. -/
def leaderboardRowOf (db : Store) (u : User) : LeaderboardRow :=
  let perfs := userPerformances db u.user_id
  { user_id := u.user_id
    username := u.username
    full_name := u.full_name
    gender := u.gender
    age_group := u.age_group
    location := u.location
    team_name := teamNameOf db u
    total_points := (perfs.map (·.points_calculated)).sum
    total_activities := perfs.length
    last_activity_date := (perfs.map (·.date_recorded)).max?
    avg_points_per_activity :=
      if perfs.length = 0 then none
      else some ((perfs.map (·.points_calculated)).sum / perfs.length)
    rank := 0 }

/-- Sort key of `ORDER BY total_points DESC, total_activities DESC`. -/
def lbKey (r : LeaderboardRow) : ℚ × ℚ :=
  (r.total_points, (r.total_activities : ℚ))

/-- data_processing.py `get_leaderboard_data`: one aggregate row per
user (zero-performance users included via the outer join), ordered by
(total points, total activities) descending, truncated by `LIMIT ?`,
then `df['rank'] = range(1, len(df) + 1)`. -/
def get_leaderboard_data (db : Store) (limit : ℕ) : List LeaderboardRow :=
  let rows := db.users.map (leaderboardRowOf db)
  let sorted := rows.insertionSort (keyLe lbKey)
  assignRanks (fun r i => { r with rank := i }) 1 (sorted.take limit)

/-! ### data_processing.py `get_team_leaderboard` -/

/-- One row of the team-leaderboard result frame. -/
structure TeamRow where
  team_name : String
  description : String
  member_count : ℕ
  total_team_points : ℚ
  avg_points_per_member : ℚ
  total_team_activities : ℕ
  last_team_activity : Option ℕ
  team_rank : ℕ
  deriving Repr, DecidableEq

/-- `LEFT JOIN users u ON t.team_id = u.team_id`. -/
def teamMembers (db : Store) (t : Team) : List User :=
  db.users.filter (fun u => u.team_id == some t.team_id)

/-- The performance rows reached from a team through its members
(`LEFT JOIN performances p ON u.user_id = p.user_id`). -/
def teamPerformances (db : Store) (t : Team) : List Performance :=
  (teamMembers db t).flatMap (fun u => userPerformances db u.user_id)

/-- The `GROUP BY t.team_id` aggregate row of `get_team_leaderboard` for
one team.  `COUNT(DISTINCT u.user_id)` counts distinct member ids;
`COUNT(p.performance_id)` counts joined performance rows;
`COALESCE(AVG(p.points_calculated), 0)` averages points over those
performance rows, with `0` when there are none. -/
def teamRowOf (db : Store) (t : Team) : TeamRow :=
  let members := teamMembers db t
  let perfs := teamPerformances db t
  { team_name := t.team_name
    description := t.description
    member_count := ((members.map (·.user_id)).dedup).length
    total_team_points := (perfs.map (·.points_calculated)).sum
    avg_points_per_member :=
      if perfs.length = 0 then 0
      else (perfs.map (·.points_calculated)).sum / perfs.length
    total_team_activities := perfs.length
    last_team_activity := (perfs.map (·.date_recorded)).max?
    team_rank := 0 }

/-- Sort key of `ORDER BY total_team_points DESC, avg_points_per_member DESC`. -/
def teamKey (r : TeamRow) : ℚ × ℚ :=
  (r.total_team_points, r.avg_points_per_member)

/-- data_processing.py `get_team_leaderboard`: one aggregate row per team,
filtered by `HAVING member_count > 0`, ordered by (total team points,
average points per member) descending, truncated by `LIMIT ?`, then
`df['team_rank'] = range(1, len(df) + 1)`. -/
def get_team_leaderboard (db : Store) (limit : ℕ) : List TeamRow :=
  let rows := (db.teams.map (teamRowOf db)).filter (fun r => 0 < r.member_count)
  let sorted := rows.insertionSort (keyLe teamKey)
  assignRanks (fun r i => { r with team_rank := i }) 1 (sorted.take limit)

/-! ### data_processing.py `get_sport_leaderboard` -/

/-- One row of the sport-specific leaderboard frame. -/
structure SportRow where
  user_id : ℕ
  username : String
  full_name : String
  sport_name : String
  unit : String
  total_performance : ℚ
  total_points : ℚ
  activity_count : ℕ
  avg_performance : ℚ
  best_performance : Option ℚ
  last_activity : Option ℕ
  sport_rank : ℕ
  deriving Repr, DecidableEq

/-- The inner join `performances p JOIN sports s` restricted by
`WHERE s.sport_name = ?`, for one user's rows. -/
def userSportPerformances (db : Store) (user_id : ℕ) (sport_name : String) : List Performance :=
  (userPerformances db user_id).filter (fun p =>
    (db.sports.find? (fun s => s.sport_id == p.sport_id)).any (fun s => s.sport_name == sport_name))

/-- Sort key of `ORDER BY total_points DESC, total_performance DESC`. -/
def sportKey (r : SportRow) : ℚ × ℚ :=
  (r.total_points, r.total_performance)

/-- The `GROUP BY u.user_id` aggregate row of `get_sport_leaderboard`
for one user: `none` when the INNER JOIN leaves the user no performance
row in the named sport. -/
def sportRowOf (db : Store) (sport_name : String) (u : User) : Option SportRow :=
  let perfs := userSportPerformances db u.user_id sport_name
  let unit := ((db.sports.find? (fun s => s.sport_name == sport_name)).map (·.unit)).getD ""
  if perfs.length = 0 then none
  else some
    { user_id := u.user_id
      username := u.username
      full_name := u.full_name
      sport_name := sport_name
      unit := unit
      total_performance := (perfs.map (·.value)).sum
      total_points := (perfs.map (·.points_calculated)).sum
      activity_count := perfs.length
      avg_performance := (perfs.map (·.value)).sum / perfs.length
      best_performance := (perfs.map (·.value)).max?
      last_activity := (perfs.map (·.date_recorded)).max?
      sport_rank := 0 }

/-- data_processing.py `get_sport_leaderboard`: the INNER JOIN keeps only
users with at least one performance in the named sport; one `GROUP BY
u.user_id` row per such user; ordered by (total points, total raw value)
descending, truncated, ranked.  An unmatched sport name simply yields no
rows — the query returns an ordinary empty frame, no error is raised. -/
def get_sport_leaderboard (db : Store) (sport_name : String) (limit : ℕ) : List SportRow :=
  let rows := db.users.filterMap (sportRowOf db sport_name)
  let sorted := rows.insertionSort (keyLe sportKey)
  assignRanks (fun r i => { r with sport_rank := i }) 1 (sorted.take limit)

/-! ### data_processing.py `get_user_ranking` -/

/-- One row of the `all_points_query` frame: per-user
`COALESCE(SUM(p.points_calculated), 0)` over the LEFT JOIN. -/
structure UserTotal where
  user_id : ℕ
  total_points : ℚ
  deriving Repr, DecidableEq

/-- The result dictionary of `get_user_ranking`. -/
structure RankingResult where
  rank : ℕ
  total_users : ℕ
  percentile : ℚ
  user_points : ℚ
  deriving Repr, DecidableEq

/-- Rounding to one decimal, `round(percentile, 1)`.  (Python rounds the
underlying float half-to-even; on these aggregates the two rounding rules
differ only at exact representable halves, which none of the stated
properties depend on.) -/
def round1 (q : ℚ) : ℚ :=
  (round (q * 10) : ℤ) / 10

/-- `ORDER BY total_points DESC` with no secondary key. -/
def pointsDesc (a b : UserTotal) : Prop :=
  b.total_points ≤ a.total_points

instance : DecidableRel pointsDesc := fun a b => by
  unfold pointsDesc; infer_instance

instance : IsTotal UserTotal pointsDesc where
  total a b := le_total b.total_points a.total_points

instance : IsTrans UserTotal pointsDesc where
  trans _ _ _ hab hbc := le_trans hbc hab

/-- The sorted `all_points_df` of `get_user_ranking`. -/
def allPointsSorted (db : Store) : List UserTotal :=
  (db.users.map (fun u => UserTotal.mk u.user_id (userTotalPoints db u.user_id))).insertionSort pointsDesc

/-- data_processing.py `get_user_ranking`: the user's own points come from
a plain SUM over their performances; ranks `range(1, len+1)` are assigned
to the population sorted by `total_points DESC`; the first row whose
`user_id` matches gives the rank; a user absent from the population gets
the sentinel `rank = 0`.  (The `user_points_df.empty` branch is dead:
an aggregate SELECT always returns one row.) -/
def get_user_ranking (db : Store) (user_id : ℕ) : RankingResult :=
  let user_points := userTotalPoints db user_id
  let sorted := allPointsSorted db
  match sorted.findIdx? (fun t => t.user_id == user_id) with
  | none => ⟨0, sorted.length, 0, user_points⟩
  | some i =>
    let rank := i + 1
    let total_users := sorted.length
    let percentile := round1 ((((total_users : ℚ) - rank) + 1) / total_users * 100)
    ⟨rank, total_users, percentile, user_points⟩

/-! ### data_processing.py `get_user_progress_data`

Of the four tables bundled by `get_user_progress_data`, the summary
stats (`user_query`) and the daily rollup (`daily_query`) carry the
specified invariants; the per-sport breakdown and the recent-10 list are
plain projections not referenced by any stated property. -/

/-- The `user_query` summary row.  `SUM`/`AVG`/`MIN`/`MAX` are plain SQL
aggregates here (no COALESCE), so they are NULL (`none`) for a user with
no performances. -/
structure UserStats where
  username : String
  full_name : String
  gender : Option String
  age_group : Option String
  location : Option String
  team_name : Option String
  first_activity_date : Option ℕ
  last_activity_date : Option ℕ
  total_activities : ℕ
  total_points : Option ℚ
  avg_points_per_activity : Option ℚ
  deriving Repr, DecidableEq

/-- `user_query`: `WHERE u.user_id = ? GROUP BY u.user_id` yields one row
when the user exists and an empty frame otherwise. -/
def user_stats (db : Store) (user_id : ℕ) : Option UserStats :=
  (db.users.find? (fun u => u.user_id == user_id)).map (fun u =>
    let perfs := userPerformances db user_id
    { username := u.username
      full_name := u.full_name
      gender := u.gender
      age_group := u.age_group
      location := u.location
      team_name := teamNameOf db u
      first_activity_date := (perfs.map (·.date_recorded)).min?
      last_activity_date := (perfs.map (·.date_recorded)).max?
      total_activities := perfs.length
      total_points := if perfs.length = 0 then none else some ((perfs.map (·.points_calculated)).sum)
      avg_points_per_activity :=
        if perfs.length = 0 then none
        else some ((perfs.map (·.points_calculated)).sum / perfs.length) })

/-- One row of the `daily_query` rollup frame. -/
structure DailyRow where
  activity_date : ℕ
  daily_activities : ℕ
  daily_points : ℚ
  cumulative_points : ℚ
  deriving Repr, DecidableEq

/-- The distinct dates with at least one performance for the user
(`GROUP BY DATE(p.date_recorded)`), in ascending order
(`ORDER BY activity_date`). -/
def activeDates (db : Store) (user_id : ℕ) : List ℕ :=
  (((userPerformances db user_id).map (·.date_recorded)).dedup).insertionSort (· ≤ ·)

/-- The running window aggregate
`SUM(SUM(p.points_calculated)) OVER (ORDER BY DATE(p.date_recorded))`:
fills each row's cumulative column with the prefix sum of daily points. -/
def addCumulative (acc : ℚ) : List DailyRow → List DailyRow
  | [] => []
  | r :: rs => { r with cumulative_points := acc + r.daily_points } :: addCumulative (acc + r.daily_points) rs

/-- data_processing.py `daily_query`: one row per distinct active date,
date ascending, carrying that day's activity count, that day's point sum
and the running cumulative point total. -/
def daily_progress (db : Store) (user_id : ℕ) : List DailyRow :=
  let perfs := userPerformances db user_id
  addCumulative 0 ((activeDates db user_id).map (fun d =>
    let dayPerfs := perfs.filter (fun p => p.date_recorded == d)
    ⟨d, dayPerfs.length, (dayPerfs.map (·.points_calculated)).sum, 0⟩))

/-! ### personal_progress.py `_render_activity_calendar` — streaks -/

/-- `sort_values('activity_date', ascending=False)`. -/
def dateDesc (a b : DailyRow) : Prop :=
  b.activity_date ≤ a.activity_date

instance : DecidableRel dateDesc := fun a b => by
  unfold dateDesc; infer_instance

instance : IsTotal DailyRow dateDesc where
  total a b := le_total b.activity_date a.activity_date

instance : IsTrans DailyRow dateDesc where
  trans _ _ _ hab hbc := le_trans hbc hab

/-- The `for ... if row['daily_activities'] > 0: current_streak += 1 else
break` loop: length of the leading all-active prefix. -/
def countLeadingActive : List DailyRow → ℕ
  | [] => 0
  | r :: rs => if 0 < r.daily_activities then countLeadingActive rs + 1 else 0

/-- personal_progress.py current-streak computation: walk the rollup rows
newest-first and count until the first row with no activity.  No calendar
dates are consulted — only the sparse row sequence. -/
def current_streak (daily : List DailyRow) : ℕ :=
  countLeadingActive (daily.insertionSort dateDesc)

/-- personal_progress.py longest-streak computation (the line marked
"Simplified calculation"): the number of rollup rows with activity. -/
def longest_streak (daily : List DailyRow) : ℕ :=
  (daily.filter (fun r => 0 < r.daily_activities)).length

/-- Length of the run of calendar-consecutive active days ending at day
`d`, for a given set of active days. -/
def streakEndingAt (activeDays : List ℕ) : ℕ → ℕ
  | 0 => if activeDays.contains 0 then 1 else 0
  | d + 1 => if activeDays.contains (d + 1) then streakEndingAt activeDays d + 1 else 0

/-- Modelled from the spec (§4.2 Streak Computation), the intended
current streak: consecutive most-recent calendar days with activity,
counting backward from the latest active day and stopping at the first
true calendar gap. -/
def spec_current_streak (activeDays : List ℕ) : ℕ :=
  match activeDays.max? with
  | none => 0
  | some m => streakEndingAt activeDays m

/-- Modelled from the spec (§4.2 Streak Computation), the intended
longest streak: the longest run of calendar-consecutive days with at
least one activity. -/
def spec_longest_streak (activeDays : List ℕ) : ℕ :=
  ((activeDays.map (streakEndingAt activeDays)).max?).getD 0

/-! ### Generic lemmas about the ranking and sorting helpers -/

theorem length_assignRanks (set : α → ℕ → α) (i : ℕ) (l : List α) :
    (assignRanks set i l).length = l.length := by
  induction l generalizing i with
  | nil => rfl
  | cons r rs ih => simp [assignRanks, ih]

theorem map_assignRanks (set : α → ℕ → α) (f : α → β)
    (hf : ∀ r i, f (set r i) = f r) (i : ℕ) (l : List α) :
    (assignRanks set i l).map f = l.map f := by
  induction l generalizing i with
  | nil => rfl
  | cons r rs ih => simp [assignRanks, hf, ih]

theorem map_get_assignRanks (set : α → ℕ → α) (get : α → ℕ)
    (hg : ∀ r i, get (set r i) = i) (i : ℕ) (l : List α) :
    (assignRanks set i l).map get = List.range' i l.length := by
  induction l generalizing i with
  | nil => rfl
  | cons r rs ih => simp [assignRanks, hg, ih, List.range']

theorem mem_assignRanks {set : α → ℕ → α} {l : List α} {row : α} :
    ∀ {i : ℕ}, row ∈ assignRanks set i l → ∃ r ∈ l, ∃ j, row = set r j := by
  induction l with
  | nil => intro i h; cases h
  | cons r rs ih =>
    intro i h
    rw [assignRanks, List.mem_cons] at h
    rcases h with rfl | h
    · exact ⟨r, List.mem_cons_self r rs, i, rfl⟩
    · obtain ⟨r0, hr0, j, hj⟩ := ih h
      exact ⟨r0, List.mem_cons_of_mem r hr0, j, hj⟩

theorem exists_assignRanks_of_mem {set : α → ℕ → α} {l : List α} {r : α} :
    r ∈ l → ∀ i : ℕ, ∃ j, set r j ∈ assignRanks set i l := by
  induction l with
  | nil => intro h; cases h
  | cons x xs ih =>
    intro h i
    rw [List.mem_cons] at h
    rcases h with rfl | h
    · exact ⟨i, by rw [assignRanks]; exact List.mem_cons_self _ _⟩
    · obtain ⟨j, hj⟩ := ih h (i + 1)
      exact ⟨j, by rw [assignRanks]; exact List.mem_cons_of_mem (set x i) hj⟩

/-- With pairwise-distinct keys, `find?` on a key match returns exactly
the member carrying that key. -/
theorem find?_eq_of_nodup_keys (key : α → ℕ) {l : List α} {s : α} :
    (l.map key).Nodup → s ∈ l → l.find? (fun x => key x == key s) = some s := by
  induction l with
  | nil => intro _ h; cases h
  | cons x xs ih =>
    intro hnd hmem
    rw [List.mem_cons] at hmem
    rcases hmem with rfl | hmem
    · exact List.find?_cons_of_pos _ (by simp)
    · have hne : key x ≠ key s := by
        intro he
        simp only [List.map_cons, List.nodup_cons] at hnd
        exact hnd.1 (he ▸ List.mem_map_of_mem key hmem)
      rw [List.find?_cons_of_neg _ (by simp [hne])]
      simp only [List.map_cons, List.nodup_cons] at hnd
      exact ih hnd.2 hmem

/-! ### Concrete stores used as witness and counterexample inputs -/

/-- The Running sport of the default catalog: 10 points per km. -/
def demoSport : Sport :=
  ⟨1, "Running", "km", 10, "Distance running - 10 points per km"⟩

/-- A small store: one sport, two users, one team, no performances. -/
def demoStore : Store :=
  { users := [⟨1, "alice", "Alice A", some "Female", some "26-35", some "Berlin", some 1⟩,
              ⟨2, "bob", "Bob B", some "Male", some "18-25", none, none⟩]
    teams := [⟨1, "Team Red", "the red team", 1⟩]
    sports := [demoSport]
    performances := []
    next_performance_id := 1 }

/-! ### Claim theorems -/

/-- C2: for a sport present in the catalog with a positive
points-per-unit factor and a non-negative raw value `v`,
`calculate_points` returns exactly `v * points_per_unit` — exact
arithmetic, no rounding at computation time. -/
theorem calculate_points_exact (db : Store) (s : Sport) (v : ℚ)
    (hnd : (db.sports.map (·.sport_id)).Nodup) (hmem : s ∈ db.sports)
    (hppu : 0 < s.points_per_unit) (hv : 0 ≤ v) :
    calculate_points db s.sport_id v = v * s.points_per_unit := by
  have hfind := find?_eq_of_nodup_keys (fun x : Sport => x.sport_id) hnd hmem
  simp only [calculate_points, lookupSport, hfind]

/-- C2 witness: Running at 10 points per km, 5 km → exactly 50 points. -/
theorem calculate_points_exact_witness :
    (demoStore.sports.map (·.sport_id)).Nodup ∧ demoSport ∈ demoStore.sports ∧
    (0 : ℚ) < demoSport.points_per_unit ∧ (0 : ℚ) ≤ 5 ∧
    calculate_points demoStore demoSport.sport_id 5 = 5 * demoSport.points_per_unit :=
  ⟨by decide, by decide, by decide, by decide,
    calculate_points_exact demoStore demoSport 5 (by decide) (by decide) (by decide) (by decide)⟩

/-- C1 (code bug, evaluated at the failing input): recording a
performance whose `sport_id = 999` is absent from the catalog is not
rejected.  `calculate_points` falls back to `0`, the INSERT still runs
(SQLite leaves the schema's declared foreign key unenforced by default),
so a row with `points_calculated` silently defaulted to `0` is created
and a fresh `performance_id` is returned — the claim requires the write
to fail with `InvalidSport` and no row to be created. -/
theorem add_performance_unknown_sport_inserts_row :
    (∀ s ∈ demoStore.sports, s.sport_id ≠ 999) ∧
    (add_performance demoStore 1 999 5 7 none).1 = demoStore.next_performance_id ∧
    (add_performance demoStore 1 999 5 7 none).2.performances =
      [⟨1, 1, 999, 5, 0, 7, none⟩] := by decide

/-- C10: the store-layer write path enforces no non-negativity
precondition: for every rational value `v`, negative ones included,
`add_performance` inserts a row with `points_calculated =
v * points_per_unit` and returns the fresh id; with a positive factor a
negative value persists negative points. -/
theorem add_performance_accepts_any_value (db : Store) (uid sid : ℕ) (v : ℚ)
    (d : ℕ) (n : Option String) (s : Sport)
    (hs : lookupSport db sid = some s) :
    (add_performance db uid sid v d n).1 = db.next_performance_id ∧
    (add_performance db uid sid v d n).2.performances =
      db.performances ++ [⟨db.next_performance_id, uid, sid, v, v * s.points_per_unit, d, n⟩] ∧
    (v < 0 → 0 < s.points_per_unit → v * s.points_per_unit < 0) := by
  refine ⟨rfl, ?_, fun hv hp => mul_neg_of_neg_of_pos hv hp⟩
  simp [add_performance, calculate_points, hs]

/-- C10 witness: a negative raw value (−5 km of Running) is accepted and
persists −50 points. -/
theorem add_performance_accepts_any_value_witness :
    lookupSport demoStore 1 = some demoSport ∧
    ((add_performance demoStore 1 1 (-5) 7 none).1 = demoStore.next_performance_id ∧
    (add_performance demoStore 1 1 (-5) 7 none).2.performances =
      demoStore.performances ++
        [⟨demoStore.next_performance_id, 1, 1, -5, (-5) * demoSport.points_per_unit, 7, none⟩] ∧
    ((-5 : ℚ) < 0 → 0 < demoSport.points_per_unit → (-5 : ℚ) * demoSport.points_per_unit < 0)) :=
  ⟨by decide, add_performance_accepts_any_value demoStore 1 1 (-5) 7 none demoSport (by decide)⟩

/-- A store with recorded performances: three users, two sports, one
team; alice ran 5 km (day 10) and 3 km (day 11), bob cycled 10 km
(day 12), carol has no performances. -/
def perfStore : Store :=
  { users := [⟨1, "alice", "Alice A", some "Female", some "26-35", some "Berlin", some 1⟩,
              ⟨2, "bob", "Bob B", some "Male", some "18-25", none, none⟩,
              ⟨3, "carol", "Carol C", none, none, none, some 1⟩]
    teams := [⟨1, "Team Red", "the red team", 1⟩]
    sports := [demoSport, ⟨2, "Cycling", "km", 3, "Cycling - 3 points per km"⟩]
    performances := [⟨1, 1, 1, 5, 50, 10, none⟩,
                     ⟨2, 1, 1, 3, 30, 11, some "evening run"⟩,
                     ⟨3, 2, 2, 10, 30, 12, none⟩]
    next_performance_id := 4 }

/-- C8 counterexample: "Bowling" is not in the catalog, the store does
hold performance data, yet `get_sport_leaderboard` returns the ordinary
empty result — no `UnknownSport` failure is surfaced (the function has
no failure channel at all). -/
theorem get_sport_leaderboard_unknown_returns_empty :
    (∀ s ∈ perfStore.sports, s.sport_name ≠ "Bowling") ∧
    perfStore.performances ≠ [] ∧
    get_sport_leaderboard perfStore "Bowling" 20 = [] := by decide

/-- C8 amended: for every sport name that matches no catalog entry, the
sport leaderboard is the ordinary empty result (indistinguishable from a
known sport nobody practised); no error is raised. -/
theorem get_sport_leaderboard_unknown_empty (db : Store) (name : String) (limit : ℕ)
    (h : ∀ s ∈ db.sports, s.sport_name ≠ name) :
    get_sport_leaderboard db name limit = [] := by
  have hperfs : ∀ uid, userSportPerformances db uid name = [] := by
    intro uid
    rw [userSportPerformances, List.filter_eq_nil_iff]
    intro p _hp
    cases hfind : db.sports.find? (fun s => s.sport_id == p.sport_id) with
    | none => simp [hfind]
    | some s =>
      have hmem := List.mem_of_find?_eq_some hfind
      simp [hfind, h s hmem]
  have hrows : db.users.filterMap (sportRowOf db name) = [] :=
    List.filterMap_eq_nil_iff.mpr (fun u _hu => by simp [sportRowOf, hperfs])
  simp [get_sport_leaderboard, hrows, assignRanks]

/-- C8 amended, witness: the unknown name "Bowling" on the populated
store yields the empty leaderboard. -/
theorem get_sport_leaderboard_unknown_empty_witness :
    (∀ s ∈ perfStore.sports, s.sport_name ≠ "Bowling") ∧
    get_sport_leaderboard perfStore "Bowling" 20 = [] :=
  ⟨by decide, get_sport_leaderboard_unknown_empty perfStore "Bowling" 20 (by decide)⟩

/-- Writing ranks and then resetting them to `0` leaves only the reset. -/
theorem map_strip_assignRanks_team (i : ℕ) (l : List TeamRow) :
    (assignRanks (fun r i => { r with team_rank := i }) i l).map
        (fun r => { r with team_rank := 0 })
      = l.map (fun r => { r with team_rank := 0 }) :=
  map_assignRanks (fun r i => { r with team_rank := i })
    (fun r => { r with team_rank := 0 }) (fun _ _ => rfl) i l

/-- Setting a `TeamRow`'s rank back to its initial `0` is the identity on
rows freshly produced by `teamRowOf`. -/
theorem teamRow_strip_eq_self {r : TeamRow} (h : r.team_rank = 0) :
    { r with team_rank := 0 } = r := by
  cases r
  simp only at h
  simp [h]

/-- A store exhibiting the average-per-member formula: one team whose
single member recorded two performances worth 10 points each. -/
def teamStore : Store :=
  { users := [⟨1, "dora", "Dora D", none, none, none, some 1⟩]
    teams := [⟨1, "Solo", "one member", 1⟩]
    sports := [demoSport]
    performances := [⟨1, 1, 1, 1, 10, 1, none⟩, ⟨2, 1, 1, 1, 10, 2, none⟩]
    next_performance_id := 3 }

/-- C4 counterexample: the single team has member_count = 1 and total
points 20, so the claimed `total / member_count` is 20 — but the code's
`COALESCE(AVG(p.points_calculated), 0)` averages over the two joined
performance rows and reports 10. -/
theorem get_team_leaderboard_avg_counterexample :
    ((get_team_leaderboard teamStore 20).map
        (fun r => (r.member_count, r.total_team_points, r.avg_points_per_member)))
      = [(1, 20, 10)] ∧ ((10 : ℚ) ≠ 20 / 1) := by
  constructor
  · norm_num [get_team_leaderboard, teamRowOf, teamStore, teamMembers, teamPerformances,
      userPerformances, assignRanks, keyLe, descLex, teamKey,
      List.dedup_cons_of_not_mem, List.dedup_nil]
  · norm_num

/-- C4 amended: when the limit covers them, the team leaderboard holds
exactly the teams with at least one member (one aggregate row each, up to
the rank column written after sorting), and each row's
`avg_points_per_member` is the team's total points divided by its total
activity count (`0` when it has no activities) — an average per
performance row, not per member. -/
theorem get_team_leaderboard_members_avg (db : Store) (limit : ℕ)
    (hlim : ((db.teams.map (teamRowOf db)).filter (fun r => 0 < r.member_count)).length ≤ limit) :
    ((get_team_leaderboard db limit).map (fun r => { r with team_rank := 0 })).Perm
      ((db.teams.map (teamRowOf db)).filter (fun r => 0 < r.member_count)) ∧
    (∀ row ∈ get_team_leaderboard db limit, 0 < row.member_count ∧
      row.avg_points_per_member =
        (if row.total_team_activities = 0 then 0
         else row.total_team_points / row.total_team_activities)) := by
  have hrowOf : ∀ t, (teamRowOf db t).team_rank = 0 := fun t => rfl
  have hrows0 : ∀ r ∈ (db.teams.map (teamRowOf db)).filter (fun r => 0 < r.member_count),
      r.team_rank = 0 := by
    intro r hr
    obtain ⟨t, _ht, rfl⟩ := List.mem_map.mp (List.mem_filter.mp hr).1
    exact hrowOf t
  have havg : ∀ r ∈ (db.teams.map (teamRowOf db)).filter (fun r => 0 < r.member_count),
      0 < r.member_count ∧
      r.avg_points_per_member =
        (if r.total_team_activities = 0 then 0
         else r.total_team_points / r.total_team_activities) := by
    intro r hr
    have hmc := (List.mem_filter.mp hr).2
    obtain ⟨t, _ht, rfl⟩ := List.mem_map.mp (List.mem_filter.mp hr).1
    refine ⟨by simpa using hmc, ?_⟩
    by_cases h0 : (teamPerformances db t).length = 0 <;> simp [teamRowOf, h0]
  have hlen : (((db.teams.map (teamRowOf db)).filter
      (fun r => 0 < r.member_count)).insertionSort (keyLe teamKey)).length ≤ limit := by
    rw [List.length_insertionSort]; exact hlim
  have htake : (((db.teams.map (teamRowOf db)).filter
      (fun r => 0 < r.member_count)).insertionSort (keyLe teamKey)).take limit
        = ((db.teams.map (teamRowOf db)).filter
            (fun r => 0 < r.member_count)).insertionSort (keyLe teamKey) :=
    List.take_of_length_le hlen
  have hGT : get_team_leaderboard db limit =
      assignRanks (fun r i => { r with team_rank := i }) 1
        (((db.teams.map (teamRowOf db)).filter
          (fun r => 0 < r.member_count)).insertionSort (keyLe teamKey)) := by
    simp only [get_team_leaderboard]
    rw [htake]
  constructor
  · rw [hGT, map_strip_assignRanks_team]
    refine List.Perm.trans (List.Perm.map _ (List.perm_insertionSort _ _)) ?_
    rw [List.map_congr_left (fun r hr => teamRow_strip_eq_self (hrows0 r hr))]
    simp
  · intro row hrow
    rw [hGT] at hrow
    obtain ⟨r, hr, j, rfl⟩ := mem_assignRanks hrow
    exact havg r ((List.mem_insertionSort (keyLe teamKey)).mp hr)

/-- C4 amended, witness: on the one-team store the leaderboard row set
matches the member-filtered aggregates and the average follows the
per-activity formula. -/
theorem get_team_leaderboard_members_avg_witness :
    ((teamStore.teams.map (teamRowOf teamStore)).filter (fun r => 0 < r.member_count)).length ≤ 20 ∧
    (((get_team_leaderboard teamStore 20).map (fun r => { r with team_rank := 0 })).Perm
        ((teamStore.teams.map (teamRowOf teamStore)).filter (fun r => 0 < r.member_count)) ∧
      (∀ row ∈ get_team_leaderboard teamStore 20, 0 < row.member_count ∧
        row.avg_points_per_member =
          (if row.total_team_activities = 0 then 0
           else row.total_team_points / row.total_team_activities))) :=
  ⟨by decide, get_team_leaderboard_members_avg teamStore 20 (by decide)⟩

/-- A store whose single user was active on day 1 and day 3 only —
a calendar gap on day 2. -/
def streakStore : Store :=
  { users := [⟨1, "erin", "Erin E", none, none, none, none⟩]
    teams := []
    sports := [demoSport]
    performances := [⟨1, 1, 1, 2, 20, 1, none⟩, ⟨2, 1, 1, 4, 40, 3, none⟩]
    next_performance_id := 3 }

/-- C5 (code bug, evaluated at the failing input): with activity on days
1 and 3 only, the code walks the sparse rollup rows — in which every row
has activity by construction — and reports current streak 2 and longest
streak 2 (the active-day count), while the claim's calendar-day rule
(stop at the day-2 gap; longest run of consecutive days) gives 1 and 1. -/
theorem streak_ignores_calendar_gaps :
    activeDates streakStore 1 = [1, 3] ∧
    current_streak (daily_progress streakStore 1) = 2 ∧
    longest_streak (daily_progress streakStore 1) = 2 ∧
    spec_current_streak (activeDates streakStore 1) = 1 ∧
    spec_longest_streak (activeDates streakStore 1) = 1 := by decide

/-- Writing ranks and then resetting them to `0` leaves only the reset
(overall-leaderboard rows). -/
theorem map_strip_assignRanks_lb (i : ℕ) (l : List LeaderboardRow) :
    (assignRanks (fun r i => { r with rank := i }) i l).map
        (fun r => { r with rank := 0 })
      = l.map (fun r => { r with rank := 0 }) :=
  map_assignRanks (fun r i => { r with rank := i })
    (fun r => { r with rank := 0 }) (fun _ _ => rfl) i l

/-- Resetting the rank to `0` is the identity on rows fresh from
`leaderboardRowOf`. -/
theorem lbRow_strip_eq_self {r : LeaderboardRow} (h : r.rank = 0) :
    { r with rank := 0 } = r := by
  cases r
  simp only at h
  simp [h]

/-- Rank assignment does not touch the `user_id` column. -/
theorem map_userid_assignRanks_lb (i : ℕ) (l : List LeaderboardRow) :
    (assignRanks (fun r i => { r with rank := i }) i l).map (fun r => r.user_id)
      = l.map (fun r => r.user_id) :=
  map_assignRanks (fun r i => { r with rank := i }) (fun r => r.user_id) (fun _ _ => rfl) i l

/-- Rank assignment does not touch the sort key. -/
theorem map_lbKey_assignRanks (i : ℕ) (l : List LeaderboardRow) :
    (assignRanks (fun r i => { r with rank := i }) i l).map lbKey = l.map lbKey :=
  map_assignRanks (fun r i => { r with rank := i }) lbKey (fun _ _ => rfl) i l

/-- The rank column after assignment is `range(i, i + len)`. -/
theorem map_rank_assignRanks_lb (i : ℕ) (l : List LeaderboardRow) :
    (assignRanks (fun r i => { r with rank := i }) i l).map (fun r => r.rank)
      = List.range' i l.length :=
  map_get_assignRanks (fun r i => { r with rank := i }) (fun r => r.rank) (fun _ _ => rfl) i l

/-- C3: for every store and positive limit, the overall leaderboard is,
row set wise, the `LIMIT`-truncation of one aggregate row per user
(totals 0 for users with no performances), sorted descending by (total
points, total activities), with ranks 1..k assigned contiguously to the
truncated output in order, and the whole population is returned whenever
the limit covers it. -/
theorem get_leaderboard_data_spec (db : Store) (limit : ℕ)
    (hpos : 0 < limit) (hids : (db.users.map (·.user_id)).Nodup) :
    (get_leaderboard_data db limit).length = min limit db.users.length ∧
    (∀ row ∈ get_leaderboard_data db limit, ∃ u ∈ db.users,
        ({ row with rank := 0 } : LeaderboardRow) = leaderboardRowOf db u) ∧
    ((get_leaderboard_data db limit).map (·.user_id)).Nodup ∧
    (db.users.length ≤ limit → ∀ u ∈ db.users, ∃ row ∈ get_leaderboard_data db limit,
        ({ row with rank := 0 } : LeaderboardRow) = leaderboardRowOf db u) ∧
    (∀ row ∈ get_leaderboard_data db limit,
        userPerformances db row.user_id = [] → row.total_points = 0) ∧
    List.Sorted (keyLe lbKey) (get_leaderboard_data db limit) ∧
    (get_leaderboard_data db limit).map (·.rank) =
      List.range' 1 (get_leaderboard_data db limit).length := by
  have hEq : get_leaderboard_data db limit =
      assignRanks (fun r i => { r with rank := i }) 1
        (((db.users.map (leaderboardRowOf db)).insertionSort (keyLe lbKey)).take limit) := by
    simp only [get_leaderboard_data]
  have hsortlen : ((db.users.map (leaderboardRowOf db)).insertionSort (keyLe lbKey)).length
      = db.users.length := by
    rw [List.length_insertionSort, List.length_map]
  have hrank0 : ∀ u, (leaderboardRowOf db u).rank = 0 := fun u => rfl
  have hmemrow : ∀ {r}, r ∈ ((db.users.map (leaderboardRowOf db)).insertionSort (keyLe lbKey)).take limit →
      ∃ u ∈ db.users, r = leaderboardRowOf db u := by
    intro r hr
    have := (List.mem_insertionSort (keyLe lbKey)).mp (List.mem_of_mem_take hr)
    obtain ⟨u, hu, hur⟩ := List.mem_map.mp this
    exact ⟨u, hu, hur.symm⟩
  have hlen : (get_leaderboard_data db limit).length = min limit db.users.length := by
    rw [hEq, length_assignRanks, List.length_take, hsortlen]
  refine ⟨hlen, ?_, ?_, ?_, ?_, ?_, ?_⟩
  · intro row hrow
    rw [hEq] at hrow
    obtain ⟨r, hr, j, rfl⟩ := mem_assignRanks hrow
    obtain ⟨u, hu, rfl⟩ := hmemrow hr
    exact ⟨u, hu, lbRow_strip_eq_self (hrank0 u)⟩
  · have hmapids : (get_leaderboard_data db limit).map (·.user_id)
        = (((db.users.map (leaderboardRowOf db)).insertionSort (keyLe lbKey)).map (fun r => r.user_id)).take limit := by
      rw [hEq, map_userid_assignRanks_lb, List.map_take]
    rw [hmapids]
    have hperm : (((db.users.map (leaderboardRowOf db)).insertionSort (keyLe lbKey)).map (fun r => r.user_id)).Perm
        (db.users.map (·.user_id)) := by
      have h1 := List.Perm.map (fun r : LeaderboardRow => r.user_id)
        (List.perm_insertionSort (keyLe lbKey) (db.users.map (leaderboardRowOf db)))
      rw [List.map_map] at h1
      have h2 : List.map ((fun r : LeaderboardRow => r.user_id) ∘ leaderboardRowOf db) db.users
          = db.users.map (fun x => x.user_id) :=
        List.map_congr_left (fun u _ => rfl)
      exact h1.trans (h2 ▸ List.Perm.refl _)
    exact (hperm.nodup_iff.mpr hids).sublist (List.take_sublist _ _)
  · intro hcov u hu
    have htake : (((db.users.map (leaderboardRowOf db)).insertionSort (keyLe lbKey)).take limit)
        = ((db.users.map (leaderboardRowOf db)).insertionSort (keyLe lbKey)) :=
      List.take_of_length_le (by rw [hsortlen]; exact hcov)
    have hmem : leaderboardRowOf db u ∈
        ((db.users.map (leaderboardRowOf db)).insertionSort (keyLe lbKey)).take limit := by
      rw [htake]
      exact (List.mem_insertionSort (keyLe lbKey)).mpr (List.mem_map_of_mem _ hu)
    obtain ⟨j, hj⟩ := exists_assignRanks_of_mem hmem 1
    refine ⟨_, by rw [hEq]; exact hj, ?_⟩
    exact lbRow_strip_eq_self (hrank0 u)
  · intro row hrow hperfs
    rw [hEq] at hrow
    obtain ⟨r, hr, j, rfl⟩ := mem_assignRanks hrow
    obtain ⟨u, _hu, rfl⟩ := hmemrow hr
    have hperfs2 : userPerformances db u.user_id = [] := hperfs
    show (leaderboardRowOf db u).total_points = 0
    simp [leaderboardRowOf, hperfs2]
  · have hkeys : (get_leaderboard_data db limit).map lbKey
        = (((db.users.map (leaderboardRowOf db)).insertionSort (keyLe lbKey)).map lbKey).take limit := by
      rw [hEq, map_lbKey_assignRanks, List.map_take]
    have hsorted : (((db.users.map (leaderboardRowOf db)).insertionSort (keyLe lbKey)).map lbKey).Pairwise descLex :=
      (List.pairwise_map).mpr (List.sorted_insertionSort (keyLe lbKey) _)
    exact (List.pairwise_map (f := lbKey)).mp
      (hkeys ▸ hsorted.sublist (List.take_sublist _ _))
  · rw [hEq, map_rank_assignRanks_lb, length_assignRanks]

/-- C3 witness: the populated three-user store with limit 10 (covering
the population). -/
theorem get_leaderboard_data_spec_witness :
    0 < 10 ∧ (perfStore.users.map (·.user_id)).Nodup ∧
    ((get_leaderboard_data perfStore 10).length = min 10 perfStore.users.length ∧
    (∀ row ∈ get_leaderboard_data perfStore 10, ∃ u ∈ perfStore.users,
        ({ row with rank := 0 } : LeaderboardRow) = leaderboardRowOf perfStore u) ∧
    ((get_leaderboard_data perfStore 10).map (·.user_id)).Nodup ∧
    (perfStore.users.length ≤ 10 → ∀ u ∈ perfStore.users, ∃ row ∈ get_leaderboard_data perfStore 10,
        ({ row with rank := 0 } : LeaderboardRow) = leaderboardRowOf perfStore u) ∧
    (∀ row ∈ get_leaderboard_data perfStore 10,
        userPerformances perfStore row.user_id = [] → row.total_points = 0) ∧
    List.Sorted (keyLe lbKey) (get_leaderboard_data perfStore 10) ∧
    (get_leaderboard_data perfStore 10).map (·.rank) =
      List.range' 1 (get_leaderboard_data perfStore 10).length) :=
  ⟨by decide, by decide, get_leaderboard_data_spec perfStore 10 (by decide) (by decide)⟩

/-! ### Lemmas about `round1` and positional lookup, for the ranking -/

theorem round1_nonneg {q : ℚ} (h : 0 ≤ q) : 0 ≤ round1 q := by
  unfold round1
  have h1 : (0 : ℤ) ≤ round (q * 10) := by
    rw [round_eq]
    refine Int.le_floor.mpr ?_
    push_cast
    linarith
  have h2 : (0 : ℚ) ≤ (round (q * 10) : ℚ) := by exact_mod_cast h1
  positivity

theorem round1_le_100 {q : ℚ} (h : q ≤ 100) : round1 q ≤ 100 := by
  unfold round1
  have h1 : round (q * 10) ≤ 1000 := by
    rw [round_eq]
    refine Int.floor_le_iff.mpr ?_
    push_cast
    linarith
  rw [div_le_iff₀ (by norm_num)]
  have h2 : ((round (q * 10) : ℤ) : ℚ) ≤ ((1000 : ℤ) : ℚ) := by exact_mod_cast h1
  push_cast at h2
  linarith

theorem round1_100 : round1 (100 : ℚ) = 100 := by
  unfold round1
  rw [show ((100 : ℚ) * 10) = ((1000 : ℤ) : ℚ) by norm_num, round_intCast]
  norm_num

/-- In a list with pairwise-distinct keys, searching for the key of the
`i`-th element finds exactly index `i`. -/
theorem findIdx?_key_getElem (key : α → ℕ) {l : List α}
    (hnd : (l.map key).Nodup) (i : ℕ) (hi : i < l.length) :
    l.findIdx? (fun x => key x == key (l.get ⟨i, hi⟩)) = some i := by
  rw [List.findIdx?_eq_some_iff_getElem]
  refine ⟨hi, by simp, fun j hj => ?_⟩
  have hj2 : j < l.length := lt_trans hj hi
  simp only [beq_iff_eq, Bool.not_eq_true, decide_eq_true_eq]
  intro he
  have hjm : j < (l.map key).length := by simpa using hj2
  have him : i < (l.map key).length := by simpa using hi
  have hmap : (l.map key).get ⟨j, hjm⟩ = (l.map key).get ⟨i, him⟩ := by
    simpa using he
  have := hnd.get_inj_iff.mp hmap
  simp only [Fin.mk.injEq] at this
  omega

/-- A pair sublist pins down two positions in order. -/
theorem pair_sublist_getElem {a b : α} {l : List α} :
    List.Sublist [a, b] l → ∃ ia ib, ∃ hia : ia < l.length, ∃ hib : ib < l.length,
      ia < ib ∧ l.get ⟨ia, hia⟩ = a ∧ l.get ⟨ib, hib⟩ = b := by
  induction l with
  | nil => intro h; exact absurd h (by simp)
  | cons x xs ih =>
    intro h
    cases h with
    | cons _ h2 =>
      obtain ⟨ia, ib, hia, hib, hlt, ha, hb⟩ := ih h2
      refine ⟨ia + 1, ib + 1, by simpa using Nat.succ_lt_succ hia,
        by simpa using Nat.succ_lt_succ hib, Nat.succ_lt_succ hlt, ?_, ?_⟩
      · simpa using ha
      · simpa using hb
    | cons₂ _ h2 =>
      have hbmem : b ∈ xs := List.singleton_sublist.mp h2
      obtain ⟨ib, hib, hb⟩ := List.getElem_of_mem hbmem
      refine ⟨0, ib + 1, Nat.succ_pos _, by simpa using Nat.succ_lt_succ hib,
        Nat.succ_pos _, rfl, ?_⟩
      simpa using hb

/-- Stable position order: if `[a, b]` is a sublist of a list with
pairwise-distinct keys, the first hit for `a`'s key comes strictly
before the first hit for `b`'s key. -/
theorem findIdx?_lt_of_pair_sublist (key : α → ℕ) {l : List α} {a b : α}
    (hnd : (l.map key).Nodup) (hab : List.Sublist [a, b] l) :
    ∃ ia ib, l.findIdx? (fun x => key x == key a) = some ia ∧
      l.findIdx? (fun x => key x == key b) = some ib ∧ ia < ib := by
  obtain ⟨ia, ib, hia, hib, hlt, ha, hb⟩ := pair_sublist_getElem hab
  have h1 := findIdx?_key_getElem key hnd ia hia
  have h2 := findIdx?_key_getElem key hnd ib hib
  rw [ha] at h1
  rw [hb] at h2
  exact ⟨ia, ib, h1, h2, hlt⟩

theorem length_allPointsSorted (db : Store) :
    (allPointsSorted db).length = db.users.length := by
  rw [allPointsSorted, List.length_insertionSort, List.length_map]

/-- C6 amended: for every user present in the population,
`get_user_ranking` returns `1 ≤ rank ≤ totalUsers` with `totalUsers` the
population size, `percentile = (totalUsers - rank + 1) / totalUsers * 100`
rounded to one decimal, `0 ≤ percentile ≤ 100` with the *unrounded* value
strictly positive (rounding can reach 0.0 once the population exceeds
2000 users), and `percentile = 100` when `rank = 1`. -/
theorem get_user_ranking_percentile (db : Store) (uid : ℕ)
    (hmem : ∃ u ∈ db.users, u.user_id = uid) :
    1 ≤ (get_user_ranking db uid).rank ∧
    (get_user_ranking db uid).rank ≤ (get_user_ranking db uid).total_users ∧
    (get_user_ranking db uid).total_users = db.users.length ∧
    (get_user_ranking db uid).percentile =
      round1 (((((get_user_ranking db uid).total_users : ℚ) -
          ((get_user_ranking db uid).rank : ℚ)) + 1)
        / ((get_user_ranking db uid).total_users : ℚ) * 100) ∧
    0 ≤ (get_user_ranking db uid).percentile ∧
    (get_user_ranking db uid).percentile ≤ 100 ∧
    0 < ((((get_user_ranking db uid).total_users : ℚ) -
          ((get_user_ranking db uid).rank : ℚ)) + 1)
        / ((get_user_ranking db uid).total_users : ℚ) * 100 ∧
    ((get_user_ranking db uid).rank = 1 → (get_user_ranking db uid).percentile = 100) := by
  obtain ⟨u, hu, rfl⟩ := hmem
  have hmem2 : UserTotal.mk u.user_id (userTotalPoints db u.user_id) ∈ allPointsSorted db := by
    rw [allPointsSorted]
    exact (List.mem_insertionSort pointsDesc).mpr (List.mem_map_of_mem _ hu)
  have hfind := List.findIdx?_eq_some_of_exists
    (⟨_, hmem2, by simp⟩ :
      ∃ x, x ∈ allPointsSorted db ∧ (fun t : UserTotal => t.user_id == u.user_id) x = true)
  have hibound := (List.findIdx?_eq_some_iff_findIdx_eq.mp hfind).1
  have hrank : (get_user_ranking db u.user_id).rank
      = (allPointsSorted db).findIdx (fun t => t.user_id == u.user_id) + 1 := by
    simp only [get_user_ranking, hfind]
  have htot : (get_user_ranking db u.user_id).total_users = (allPointsSorted db).length := by
    simp only [get_user_ranking, hfind]
  have hperc : (get_user_ranking db u.user_id).percentile
      = round1 (((((allPointsSorted db).length : ℚ) -
          (((allPointsSorted db).findIdx (fun t => t.user_id == u.user_id) : ℕ) + 1 : ℕ)) + 1)
        / ((allPointsSorted db).length : ℚ) * 100) := by
    simp only [get_user_ranking, hfind]
  have hNpos : 0 < (allPointsSorted db).length := lt_of_le_of_lt (Nat.zero_le _) hibound
  have hNQ : (0 : ℚ) < ((allPointsSorted db).length : ℚ) := by exact_mod_cast hNpos
  have hiQ : (((allPointsSorted db).findIdx (fun t => t.user_id == u.user_id) : ℚ) + 1)
      ≤ ((allPointsSorted db).length : ℚ) := by
    have := hibound
    exact_mod_cast Nat.succ_le_of_lt this
  have hq : (0 : ℚ) < ((((allPointsSorted db).length : ℚ) -
      ((((allPointsSorted db).findIdx (fun t => t.user_id == u.user_id) : ℕ) + 1 : ℕ) : ℚ)) + 1)
        / ((allPointsSorted db).length : ℚ) * 100 := by
    push_cast
    have hnum : (0 : ℚ) < (((allPointsSorted db).length : ℚ) -
        (((allPointsSorted db).findIdx (fun t => t.user_id == u.user_id) : ℚ) + 1)) + 1 := by
      linarith
    positivity
  have hqle : ((((allPointsSorted db).length : ℚ) -
      ((((allPointsSorted db).findIdx (fun t => t.user_id == u.user_id) : ℕ) + 1 : ℕ) : ℚ)) + 1)
        / ((allPointsSorted db).length : ℚ) * 100 ≤ 100 := by
    push_cast
    rw [div_mul_eq_mul_div, div_le_iff₀ hNQ]
    have hi0 : (0 : ℚ) ≤ ((allPointsSorted db).findIdx (fun t => t.user_id == u.user_id) : ℚ) := by
      positivity
    linarith
  refine ⟨by rw [hrank]; exact Nat.succ_le_succ (Nat.zero_le _),
    by rw [hrank, htot]; exact Nat.succ_le_of_lt hibound,
    by rw [htot, length_allPointsSorted],
    ?_, ?_, ?_, ?_, ?_⟩
  · rw [hperc, hrank, htot]
  · rw [hperc]
    refine round1_nonneg (le_of_lt hq)
  · rw [hperc]
    exact round1_le_100 hqle
  · rw [hrank, htot]
    have := hq
    push_cast at this ⊢
    exact this
  · intro h1
    rw [hrank] at h1
    have hi0 : (allPointsSorted db).findIdx (fun t => t.user_id == u.user_id) = 0 := by omega
    rw [hperc, hi0]
    have : ((((allPointsSorted db).length : ℚ) - ((0 : ℕ) + 1 : ℕ)) + 1)
        / ((allPointsSorted db).length : ℚ) * 100 = 100 := by
      push_cast
      field_simp
    rw [this, round1_100]

/-- C6 amended, witness: user 1 of the populated store. -/
theorem get_user_ranking_percentile_witness :
    (∃ u ∈ perfStore.users, u.user_id = 1) ∧
    (1 ≤ (get_user_ranking perfStore 1).rank ∧
    (get_user_ranking perfStore 1).rank ≤ (get_user_ranking perfStore 1).total_users ∧
    (get_user_ranking perfStore 1).total_users = perfStore.users.length ∧
    (get_user_ranking perfStore 1).percentile =
      round1 (((((get_user_ranking perfStore 1).total_users : ℚ) -
          ((get_user_ranking perfStore 1).rank : ℚ)) + 1)
        / ((get_user_ranking perfStore 1).total_users : ℚ) * 100) ∧
    0 ≤ (get_user_ranking perfStore 1).percentile ∧
    (get_user_ranking perfStore 1).percentile ≤ 100 ∧
    0 < ((((get_user_ranking perfStore 1).total_users : ℚ) -
          ((get_user_ranking perfStore 1).rank : ℚ)) + 1)
        / ((get_user_ranking perfStore 1).total_users : ℚ) * 100 ∧
    ((get_user_ranking perfStore 1).rank = 1 → (get_user_ranking perfStore 1).percentile = 100)) :=
  ⟨by decide, get_user_ranking_percentile perfStore 1 (by decide)⟩

/-- A synthetic user whose id is all the ranking reads. -/
def mkUser (i : ℕ) : User := ⟨i, "u", "u", none, none, none, none⟩

/-- A population of 2001 registered users, none of whom has recorded a
performance. -/
def bigStore : Store :=
  { users := (List.range' 1 2001).map mkUser
    teams := []
    sports := []
    performances := []
    next_performance_id := 1 }

/-- With every total equal to 0, the stable sort leaves the population in
table order. -/
theorem bigStore_sorted_eq :
    allPointsSorted bigStore = (List.range' 1 2001).map (fun i => UserTotal.mk i 0) := by
  have htotals : bigStore.users.map (fun u => UserTotal.mk u.user_id (userTotalPoints bigStore u.user_id))
      = (List.range' 1 2001).map (fun i => UserTotal.mk i 0) := by
    show ((List.range' 1 2001).map mkUser).map _ = _
    rw [List.map_map]
    exact List.map_congr_left (fun i _ => rfl)
  rw [allPointsSorted, htotals]
  apply List.Sorted.insertionSort_eq
  apply (List.pairwise_map).mpr
  apply List.pairwise_of_forall_mem_list
  intro a _ b _
  exact le_refl 0

/-- C6 counterexample: with 2001 users and no performances, user 2001 is
present with rank 2001 ≥ 1 among 2001 ≥ 1 users, yet the returned
one-decimal percentile is 0.0 — `0 < percentile` fails after rounding
(the unrounded value is 100/2001 ≈ 0.0499…). -/
theorem get_user_ranking_percentile_not_pos :
    (∃ u ∈ bigStore.users, u.user_id = 2001) ∧
    (get_user_ranking bigStore 2001).rank = 2001 ∧
    (get_user_ranking bigStore 2001).total_users = 2001 ∧
    ¬ (0 < (get_user_ranking bigStore 2001).percentile) := by
  have hnd : (((List.range' 1 2001).map (fun i => UserTotal.mk i 0)).map
      (fun t : UserTotal => t.user_id)).Nodup := by
    rw [List.map_map]
    have he : ((fun t : UserTotal => t.user_id) ∘ (fun i => UserTotal.mk i 0)) = fun i : ℕ => i := rfl
    rw [he, List.map_id']
    exact List.nodup_range' 1 2001
  have hlen : ((List.range' 1 2001).map (fun i => UserTotal.mk i 0)).length = 2001 := by
    simp
  have hi : (2000 : ℕ) < ((List.range' 1 2001).map (fun i => UserTotal.mk i 0)).length := by
    rw [hlen]; norm_num
  have hget : ((List.range' 1 2001).map (fun i => UserTotal.mk i 0)).get ⟨2000, hi⟩
      = UserTotal.mk 2001 0 := by
    simp
  have hfind := findIdx?_key_getElem (fun t : UserTotal => t.user_id) hnd 2000 hi
  rw [hget] at hfind
  have hfind2 : (allPointsSorted bigStore).findIdx? (fun t => t.user_id == 2001) = some 2000 := by
    rw [bigStore_sorted_eq]
    simpa using hfind
  have hlen2 : (allPointsSorted bigStore).length = 2001 := by
    rw [bigStore_sorted_eq]; exact hlen
  refine ⟨⟨mkUser 2001, ?_, rfl⟩, ?_, ?_, ?_⟩
  · exact List.mem_map_of_mem mkUser (by
      rw [List.mem_range']
      exact ⟨2000, by norm_num, by norm_num⟩)
  · simp only [get_user_ranking, hfind2]
  · simp only [get_user_ranking, hfind2]
    exact hlen2
  · simp only [get_user_ranking, hfind2]
    rw [hlen2]
    have hval : ((((2001 : ℕ) : ℚ) - ((2000 + 1 : ℕ) : ℚ)) + 1) / ((2001 : ℕ) : ℚ) * 100
        = 100 / 2001 := by
      push_cast
      norm_num
    rw [hval]
    have hr0 : round1 ((100 : ℚ) / 2001) = 0 := by
      unfold round1
      have : round ((100 : ℚ) / 2001 * 10) = 0 := by
        rw [round_eq]
        rw [Int.floor_eq_zero_iff]
        constructor
        · norm_num
        · norm_num
      rw [this]
      norm_num
    rw [hr0]
    norm_num

/-- Two members of a list pairwise-increasing in `user_id` occur in id
order as a pair sublist. -/
theorem pair_sublist_of_pairwise_lt {l : List User}
    (hpw : l.Pairwise (fun u v => u.user_id < v.user_id)) {u v : User} :
    u ∈ l → v ∈ l → u.user_id < v.user_id → List.Sublist [u, v] l := by
  induction l with
  | nil => intro hu; cases hu
  | cons x xs ih =>
    intro hu hv hlt
    rw [List.pairwise_cons] at hpw
    rw [List.mem_cons] at hu hv
    rcases hu with rfl | hu
    · rcases hv with rfl | hv
      · exact absurd hlt (lt_irrefl _)
      · exact List.Sublist.cons₂ u (List.singleton_sublist.mpr hv)
    · rcases hv with rfl | hv
      · exact absurd (hpw.1 u hu) (by omega)
      · exact List.Sublist.cons x (ih hpw.2 hu hv hlt)

/-- The sorted population carries the same multiset of user ids as the
users table. -/
theorem allPointsSorted_ids_perm (db : Store) :
    ((allPointsSorted db).map (fun t : UserTotal => t.user_id)).Perm
      (db.users.map (fun u => u.user_id)) := by
  rw [allPointsSorted]
  have h1 := List.Perm.map (fun t : UserTotal => t.user_id)
    (List.perm_insertionSort pointsDesc
      (db.users.map (fun u => UserTotal.mk u.user_id (userTotalPoints db u.user_id))))
  rw [List.map_map] at h1
  have h2 : List.map ((fun t : UserTotal => t.user_id) ∘
      (fun u : User => UserTotal.mk u.user_id (userTotalPoints db u.user_id))) db.users
        = db.users.map (fun u => u.user_id) :=
    List.map_congr_left (fun u _ => rfl)
  exact h1.trans (h2 ▸ List.Perm.refl _)

/-- C7: with the users table listed in ascending `user_id` order (the
AUTOINCREMENT table-scan order), per-user ranking is deterministic: the
ranks assigned across the whole population are exactly 1..N, and a tie
in total points is broken by the fixed secondary key `user_id`
(ascending) through the stable sort. -/
theorem get_user_ranking_deterministic (db : Store)
    (hpw : db.users.Pairwise (fun u v => u.user_id < v.user_id)) :
    (db.users.map (fun u => (get_user_ranking db u.user_id).rank)).Perm
      (List.range' 1 db.users.length) ∧
    (∀ u ∈ db.users, ∀ v ∈ db.users,
      userTotalPoints db u.user_id = userTotalPoints db v.user_id →
      u.user_id < v.user_id →
      (get_user_ranking db u.user_id).rank < (get_user_ranking db v.user_id).rank) := by
  have hidn : (db.users.map (fun u => u.user_id)).Nodup := by
    have := hpw.map (fun u : User => u.user_id)
      (fun a b (h : a.user_id < b.user_id) => h)
    exact this.imp (fun {a b} (h : a < b) => Nat.ne_of_lt h)
  have hsortnd : ((allPointsSorted db).map (fun t : UserTotal => t.user_id)).Nodup :=
    (allPointsSorted_ids_perm db).nodup_iff.mpr hidn
  constructor
  · have hstep1 : (allPointsSorted db).map
        (fun t => (get_user_ranking db t.user_id).rank)
          = List.range' 1 db.users.length := by
      apply List.ext_getElem
      · simp [length_allPointsSorted]
      · intro k h1 h2
        have hk : k < (allPointsSorted db).length := by
          simpa using h1
        have hf := findIdx?_key_getElem (fun t : UserTotal => t.user_id) hsortnd k hk
        rw [List.getElem_map, List.getElem_range']
        have hg : (allPointsSorted db).get ⟨k, hk⟩ = (allPointsSorted db)[k] := rfl
        rw [hg] at hf
        simp only [get_user_ranking, hf]
        omega
    have e1 : db.users.map (fun u => (get_user_ranking db u.user_id).rank)
        = (db.users.map (fun u => u.user_id)).map (fun i => (get_user_ranking db i).rank) := by
      rw [List.map_map]
      exact List.map_congr_left (fun u _ => rfl)
    have e2 : ((allPointsSorted db).map (fun t : UserTotal => t.user_id)).map
        (fun i => (get_user_ranking db i).rank) = List.range' 1 db.users.length := by
      rw [List.map_map]
      exact hstep1
    have hperm := List.Perm.map (fun i => (get_user_ranking db i).rank)
      (allPointsSorted_ids_perm db)
    rw [e1]
    exact e2 ▸ hperm.symm
  · intro u hu v hv heq hlt
    have hsub := pair_sublist_of_pairwise_lt hpw hu hv hlt
    have hsub2 : List.Sublist
        [UserTotal.mk u.user_id (userTotalPoints db u.user_id),
         UserTotal.mk v.user_id (userTotalPoints db v.user_id)]
        (db.users.map (fun u => UserTotal.mk u.user_id (userTotalPoints db u.user_id))) := by
      simpa using hsub.map (fun u : User => UserTotal.mk u.user_id (userTotalPoints db u.user_id))
    have hr : pointsDesc (UserTotal.mk u.user_id (userTotalPoints db u.user_id))
        (UserTotal.mk v.user_id (userTotalPoints db v.user_id)) := le_of_eq heq.symm
    have hsub3 : List.Sublist
        [UserTotal.mk u.user_id (userTotalPoints db u.user_id),
         UserTotal.mk v.user_id (userTotalPoints db v.user_id)] (allPointsSorted db) := by
      rw [allPointsSorted]
      exact List.pair_sublist_insertionSort hr hsub2
    obtain ⟨ia, ib, hfa, hfb, hlt2⟩ :=
      findIdx?_lt_of_pair_sublist (fun t : UserTotal => t.user_id) hsortnd hsub3
    have hfa2 : (allPointsSorted db).findIdx? (fun t => t.user_id == u.user_id) = some ia := by
      simpa using hfa
    have hfb2 : (allPointsSorted db).findIdx? (fun t => t.user_id == v.user_id) = some ib := by
      simpa using hfb
    have hru : (get_user_ranking db u.user_id).rank = ia + 1 := by
      simp only [get_user_ranking, hfa2]
    have hrv : (get_user_ranking db v.user_id).rank = ib + 1 := by
      simp only [get_user_ranking, hfb2]
    omega

/-- Five users, ids ascending, with totals [100, 80, 80, 50, 0]:
users 2 and 3 tie on points. -/
def tieStore : Store :=
  { users := [⟨1, "a", "A", none, none, none, none⟩,
              ⟨2, "b", "B", none, none, none, none⟩,
              ⟨3, "c", "C", none, none, none, none⟩,
              ⟨4, "d", "D", none, none, none, none⟩,
              ⟨5, "e", "E", none, none, none, none⟩]
    teams := []
    sports := [demoSport]
    performances := [⟨1, 1, 1, 10, 100, 1, none⟩,
                     ⟨2, 2, 1, 8, 80, 1, none⟩,
                     ⟨3, 3, 1, 8, 80, 1, none⟩,
                     ⟨4, 4, 1, 5, 50, 1, none⟩]
    next_performance_id := 5 }

/-- C7 witness: the five-user population with the 80-point tie. -/
theorem get_user_ranking_deterministic_witness :
    tieStore.users.Pairwise (fun u v => u.user_id < v.user_id) ∧
    ((tieStore.users.map (fun u => (get_user_ranking tieStore u.user_id).rank)).Perm
        (List.range' 1 tieStore.users.length) ∧
      (∀ u ∈ tieStore.users, ∀ v ∈ tieStore.users,
        userTotalPoints tieStore u.user_id = userTotalPoints tieStore v.user_id →
        u.user_id < v.user_id →
        (get_user_ranking tieStore u.user_id).rank < (get_user_ranking tieStore v.user_id).rank)) :=
  ⟨by decide, get_user_ranking_deterministic tieStore (by decide)⟩

/-! ### Lemmas for the daily rollup (C9) -/

/-- Splitting a mapped sum along a Boolean filter. -/
theorem sum_map_filter_split (p : α → Bool) (val : α → ℚ) (l : List α) :
    ((l.filter p).map val).sum + ((l.filter (fun a => !(p a))).map val).sum
      = (l.map val).sum := by
  induction l with
  | nil => simp
  | cons a l ih =>
    by_cases h : p a <;> simp [h, List.filter_cons] <;> linarith

/-- Grouping a mapped sum by a covering list of distinct keys. -/
theorem sum_filter_partition (key : α → ℕ) (val : α → ℚ) :
    ∀ (ds : List ℕ) (l : List α), ds.Nodup → (∀ a ∈ l, key a ∈ ds) →
      (ds.map (fun d => ((l.filter (fun a => key a == d)).map val).sum)).sum
        = (l.map val).sum := by
  intro ds
  induction ds with
  | nil =>
    intro l _ hcov
    have : l = [] := List.eq_nil_iff_forall_not_mem.mpr (fun a ha => by simpa using hcov a ha)
    subst this
    simp
  | cons d ds ih =>
    intro l hnd hcov
    rw [List.nodup_cons] at hnd
    have hsplit := sum_map_filter_split (fun a => key a == d) val l
    have htail : ∀ d' ∈ ds,
        (l.filter (fun a => !(key a == d))).filter (fun a => key a == d')
          = l.filter (fun a => key a == d') := by
      intro d' hd'
      rw [List.filter_filter]
      apply List.filter_congr
      intro a _ha
      by_cases h : key a = d'
      · have hne : d' ≠ d := fun he => hnd.1 (he ▸ hd')
        simp [h, hne]
      · simp [h]
    have hcov2 : ∀ a ∈ l.filter (fun a => !(key a == d)), key a ∈ ds := by
      intro a ha
      rw [List.mem_filter] at ha
      have := hcov a ha.1
      rw [List.mem_cons] at this
      rcases this with h | h
      · exfalso
        have := ha.2
        simp [h] at this
      · exact h
    have hIH := ih (l.filter (fun a => !(key a == d))) hnd.2 hcov2
    have hmaps : ds.map (fun d2 => ((l.filter (fun a => key a == d2)).map val).sum)
        = ds.map (fun d2 => (((l.filter (fun a => !(key a == d))).filter
            (fun a => key a == d2)).map val).sum) :=
      List.map_congr_left (fun d2 hd2 => by rw [htail d2 hd2])
    rw [List.map_cons, List.sum_cons, hmaps, hIH]
    linarith

theorem map_date_addCumulative (acc : ℚ) (l : List DailyRow) :
    (addCumulative acc l).map (·.activity_date) = l.map (·.activity_date) := by
  induction l generalizing acc with
  | nil => rfl
  | cons r rs ih => simp [addCumulative, ih]

theorem mem_addCumulative {acc : ℚ} {l : List DailyRow} {r : DailyRow} :
    r ∈ addCumulative acc l → ∃ r0 ∈ l, r.activity_date = r0.activity_date ∧
      r.daily_activities = r0.daily_activities ∧ r.daily_points = r0.daily_points := by
  induction l generalizing acc with
  | nil => intro h; cases h
  | cons r0 rs ih =>
    intro h
    rw [addCumulative, List.mem_cons] at h
    rcases h with rfl | h
    · exact ⟨r0, List.mem_cons_self _ _, rfl, rfl, rfl⟩
    · obtain ⟨r1, hr1, he⟩ := ih h
      exact ⟨r1, List.mem_cons_of_mem _ hr1, he⟩

theorem addCumulative_sorted (acc : ℚ) (l : List DailyRow)
    (h : ∀ r ∈ l, 0 ≤ r.daily_points) :
    ((addCumulative acc l).map (·.cumulative_points)).Sorted (· ≤ ·) ∧
    (∀ c ∈ (addCumulative acc l).map (·.cumulative_points), acc ≤ c) := by
  induction l generalizing acc with
  | nil => exact ⟨List.sorted_nil, fun c hc => by cases hc⟩
  | cons r rs ih =>
    have hr0 : 0 ≤ r.daily_points := h r (List.mem_cons_self _ _)
    obtain ⟨ih1, ih2⟩ := ih (acc + r.daily_points)
      (fun x hx => h x (List.mem_cons_of_mem _ hx))
    constructor
    · rw [addCumulative, List.map_cons, List.sorted_cons]
      exact ⟨fun b hb => ih2 b hb, ih1⟩
    · intro c hc
      rw [addCumulative, List.map_cons, List.mem_cons] at hc
      rcases hc with rfl | hc
      · show acc ≤ acc + r.daily_points
        linarith
      · have := ih2 c hc
        linarith

theorem addCumulative_getLast? : ∀ (acc : ℚ) (l : List DailyRow), l ≠ [] →
    ((addCumulative acc l).map (·.cumulative_points)).getLast?
      = some (acc + (l.map (·.daily_points)).sum)
  | _acc, [], h => absurd rfl h
  | acc, [r], _ => by simp [addCumulative]
  | acc, r :: r2 :: rs, _ => by
    have ih := addCumulative_getLast? (acc + r.daily_points) (r2 :: rs) (by simp)
    simp only [addCumulative, List.map_cons] at ih ⊢
    rw [List.getLast?_cons_cons, ih, List.sum_cons, List.sum_cons]
    congr 1
    rw [List.sum_cons]
    ring

/-- C9: when the user's recorded values are non-negative and each row's
stored points respect the data-model invariant (value × the sport's
positive factor), the daily rollup has exactly one row per distinct
active date in strictly ascending date order, every row covers at least
one performance, the cumulative column is non-decreasing, and its final
entry equals the summary stats' total points (both empty for a user with
no performances). -/
theorem daily_rollup_spec (db : Store) (uid : ℕ)
    (hval : ∀ p ∈ db.performances, p.user_id = uid → 0 ≤ p.value)
    (hpts : ∀ p ∈ db.performances, p.user_id = uid →
      ∃ s ∈ db.sports, p.sport_id = s.sport_id ∧
        p.points_calculated = p.value * s.points_per_unit ∧ 0 < s.points_per_unit) :
    ((daily_progress db uid).map (·.activity_date)).Sorted (· < ·) ∧
    (∀ d, (d ∈ (daily_progress db uid).map (·.activity_date)) ↔
        ∃ p ∈ db.performances, p.user_id = uid ∧ p.date_recorded = d) ∧
    (∀ r ∈ daily_progress db uid, 0 < r.daily_activities) ∧
    ((daily_progress db uid).map (·.cumulative_points)).Sorted (· ≤ ·) ∧
    (∀ stats, user_stats db uid = some stats →
        ((daily_progress db uid).map (·.cumulative_points)).getLast? = stats.total_points) := by
  have hnod : (activeDates db uid).Nodup := by
    rw [activeDates]
    exact ((List.perm_insertionSort _ _).nodup_iff).mpr (List.nodup_dedup _)
  have hsorted : (activeDates db uid).Sorted (· ≤ ·) := by
    rw [activeDates]
    exact List.sorted_insertionSort _ _
  have hstrict : (activeDates db uid).Sorted (· < ·) :=
    (hsorted.and hnod).imp (fun {a b} h => lt_of_le_of_ne h.1 h.2)
  have hmemdate : ∀ d, d ∈ activeDates db uid ↔
      ∃ p ∈ userPerformances db uid, p.date_recorded = d := by
    intro d
    rw [activeDates]
    rw [List.mem_insertionSort, List.mem_dedup, List.mem_map]
  have hcov : ∀ p ∈ userPerformances db uid, p.date_recorded ∈ activeDates db uid :=
    fun p hp => (hmemdate _).mpr ⟨p, hp, rfl⟩
  have hDP : daily_progress db uid = addCumulative 0 ((activeDates db uid).map (fun d =>
      ⟨d, ((userPerformances db uid).filter (fun p => p.date_recorded == d)).length,
        (((userPerformances db uid).filter (fun p => p.date_recorded == d)).map
          (·.points_calculated)).sum, 0⟩)) := by
    simp only [daily_progress]
  have hdates_eq : (daily_progress db uid).map (·.activity_date) = activeDates db uid := by
    rw [hDP, map_date_addCumulative, List.map_map]
    exact List.map_id'' (fun d => rfl) _
  have hpnn : ∀ p ∈ userPerformances db uid, 0 ≤ p.points_calculated := by
    intro p hp
    rw [userPerformances, List.mem_filter] at hp
    have hu : p.user_id = uid := by simpa using hp.2
    obtain ⟨s, _hs, _hid, hpe, hppu⟩ := hpts p hp.1 hu
    rw [hpe]
    exact mul_nonneg (hval p hp.1 hu) (le_of_lt hppu)
  have hbase : ∀ r ∈ (activeDates db uid).map (fun d =>
      (⟨d, ((userPerformances db uid).filter (fun p => p.date_recorded == d)).length,
        (((userPerformances db uid).filter (fun p => p.date_recorded == d)).map
          (·.points_calculated)).sum, 0⟩ : DailyRow)), 0 ≤ r.daily_points := by
    intro r hr
    obtain ⟨d, _hd, rfl⟩ := List.mem_map.mp hr
    apply List.sum_nonneg
    intro x hx
    obtain ⟨p, hp, rfl⟩ := List.mem_map.mp hx
    exact hpnn p (List.mem_of_mem_filter hp)
  refine ⟨?_, ?_, ?_, ?_, ?_⟩
  · rw [hdates_eq]
    exact hstrict
  · intro d
    rw [hdates_eq, hmemdate d]
    constructor
    · rintro ⟨p, hp, hd⟩
      rw [userPerformances, List.mem_filter] at hp
      exact ⟨p, hp.1, by simpa using hp.2, hd⟩
    · rintro ⟨p, hp, hu, hd⟩
      exact ⟨p, by rw [userPerformances, List.mem_filter]; exact ⟨hp, by simpa using hu⟩, hd⟩
  · intro r hr
    rw [hDP] at hr
    obtain ⟨r0, hr0, _hd, ha, _hp⟩ := mem_addCumulative hr
    obtain ⟨d, hd, rfl⟩ := List.mem_map.mp hr0
    obtain ⟨p, hp, hpd⟩ := (hmemdate d).mp hd
    have hmem : p ∈ (userPerformances db uid).filter (fun q => q.date_recorded == d) :=
      List.mem_filter.mpr ⟨hp, by simpa using hpd⟩
    rw [ha]
    exact List.length_pos.mpr (List.ne_nil_of_mem hmem)
  · rw [hDP]
    exact (addCumulative_sorted 0 _ hbase).1
  · intro stats hstats
    have hstats_total : stats.total_points =
        (if (userPerformances db uid).length = 0 then none
         else some (((userPerformances db uid).map (·.points_calculated)).sum)) := by
      rw [user_stats] at hstats
      cases hfound : db.users.find? (fun u => u.user_id == uid) with
      | none => rw [hfound] at hstats; cases hstats
      | some u =>
        rw [hfound] at hstats
        have := Option.some.inj hstats
        rw [← this]
    by_cases hperfs : userPerformances db uid = []
    · have hAD : activeDates db uid = [] := by
        rw [activeDates, hperfs]
        rfl
      rw [hDP, hAD, hstats_total]
      simp [hperfs, addCumulative]
    · have hADne : activeDates db uid ≠ [] := by
        obtain ⟨p, hp⟩ := List.exists_mem_of_ne_nil _ hperfs
        exact List.ne_nil_of_mem (hcov p hp)
      have hbasene : (activeDates db uid).map (fun d =>
          (⟨d, ((userPerformances db uid).filter (fun p => p.date_recorded == d)).length,
            (((userPerformances db uid).filter (fun p => p.date_recorded == d)).map
              (·.points_calculated)).sum, 0⟩ : DailyRow)) ≠ [] := by
        intro h
        exact hADne (List.map_eq_nil_iff.mp h)
      rw [hDP, addCumulative_getLast? 0 _ hbasene, List.map_map]
      have hsum : ((activeDates db uid).map ((fun r : DailyRow => r.daily_points) ∘ (fun d =>
          (⟨d, ((userPerformances db uid).filter (fun p => p.date_recorded == d)).length,
            (((userPerformances db uid).filter (fun p => p.date_recorded == d)).map
              (·.points_calculated)).sum, 0⟩ : DailyRow)))).sum
          = ((userPerformances db uid).map (·.points_calculated)).sum := by
        have := sum_filter_partition (fun p : Performance => p.date_recorded)
          (fun p : Performance => p.points_calculated) (activeDates db uid)
          (userPerformances db uid) hnod hcov
        exact this
      rw [hsum, hstats_total, if_neg (by simpa [List.length_eq_zero] using hperfs)]
      rw [zero_add]

/-- C9 witness: alice (user 1) with her two Running days. -/
theorem daily_rollup_spec_witness :
    (∀ p ∈ perfStore.performances, p.user_id = 1 → 0 ≤ p.value) ∧
    (∀ p ∈ perfStore.performances, p.user_id = 1 →
      ∃ s ∈ perfStore.sports, p.sport_id = s.sport_id ∧
        p.points_calculated = p.value * s.points_per_unit ∧ 0 < s.points_per_unit) ∧
    (((daily_progress perfStore 1).map (·.activity_date)).Sorted (· < ·) ∧
    (∀ d, (d ∈ (daily_progress perfStore 1).map (·.activity_date)) ↔
        ∃ p ∈ perfStore.performances, p.user_id = 1 ∧ p.date_recorded = d) ∧
    (∀ r ∈ daily_progress perfStore 1, 0 < r.daily_activities) ∧
    ((daily_progress perfStore 1).map (·.cumulative_points)).Sorted (· ≤ ·) ∧
    (∀ stats, user_stats perfStore 1 = some stats →
        ((daily_progress perfStore 1).map (·.cumulative_points)).getLast? = stats.total_points)) := by
  have hval : ∀ p ∈ perfStore.performances, p.user_id = 1 → 0 ≤ p.value := by decide
  have hpts : ∀ p ∈ perfStore.performances, p.user_id = 1 →
      ∃ s ∈ perfStore.sports, p.sport_id = s.sport_id ∧
        p.points_calculated = p.value * s.points_per_unit ∧ 0 < s.points_per_unit := by
    intro p hp
    fin_cases hp
    · exact fun _ => ⟨demoSport, by decide, by decide, by norm_num [demoSport], by decide⟩
    · exact fun _ => ⟨demoSport, by decide, by decide, by norm_num [demoSport], by decide⟩
    · exact fun _ => ⟨⟨2, "Cycling", "km", 3, "Cycling - 3 points per km"⟩,
        by decide, by decide, by norm_num, by decide⟩
  exact ⟨hval, hpts, daily_rollup_spec perfStore 1 hval hpts⟩

end FitnessApp
